import Mathlib

set_option maxRecDepth 2000

/-!
Verification of the barycentric geometry and rational-ratio engine of the
`delta` ternary-diagram repository.

The Python source is embedded shallowly over exact rationals (`ℚ`): machine
floats become rationals, `math.fsum` becomes the exact sum, raising code
returns `Option`/`Except`.  The repository carries two evolving versions of
the engine, `delta/math_utils.py` (current) and `core/math_utils.py`
(legacy); both are embedded where a claim refers to both.  Real-valued
square roots (`np.linalg.norm`) are modelled with `Real.sqrt`.
-/

namespace Delta

/-- Modelled from the spec: `delta/constants.py` is absent from `src/`; the
spec names a strict "zero epsilon" `ε_zero` guarding every division (zero-sum
composition, zero-length basis, zero-area triangle) but gives no numeric
value.  We fix the representative value `1e-12`; no confirmed claim depends
on the exact choice. -/
def EPSILON_ZERO : ℚ := 1 / 10 ^ 12

/-- Modelled from the spec: `delta/constants.py` is absent from `src/`; the
spec requires a second, looser "boundary epsilon" for point-in-triangle
decisions.  We fix the representative value `1e-9` (looser than
`EPSILON_ZERO`, as the spec demands). -/
def EPSILON_BOUNDARY : ℚ := 1 / 10 ^ 9

/-- Modelled from the spec: `delta/constants.py` is absent from `src/`; the
repository's own tests (`src/tests/test_math_utils.py`) pin the absolute
comparison tolerance of `normalized_is_close` at `5e-5` (differences of
`5e-6` compare close, `1e-4` does not). -/
def COMPOSITION_COMPARISON_ATOL : ℚ := 5 / 10 ^ 5

/-- Modelled from the spec: `delta/constants.py` is absent from `src/`; the
tests pin the ratio validation tolerance at `5e-5` (noise of `0.5e-5` keeps
`[1,1]`, noise of `6e-5` does not). -/
def RATIO_TOLERANCE : ℚ := 5 / 10 ^ 5

/-- Modelled from the spec: `delta/constants.py` is absent from `src/`; the
spec's example for the loosest denominator tier is `1,000,000`. -/
def RATIO_MAX_DENOMINATOR : ℕ := 1000000

/-- Modelled from the spec: the triangle height is `H = sqrt(3)/2`, which is
irrational; at runtime the program holds the IEEE double closest to it.  We
use the exact rational value of that double's shortest decimal repr,
`0.8660254037844386`.  No claim depends on more than `0 < H`. -/
def TRIANGLE_HEIGHT : ℚ := 8660254037844386 / 10 ^ 16

/-- Source `delta/models.py`: `Composition` stores three raw barycentric
coordinates.  Finiteness of the floats is automatic over `ℚ`. -/
structure Composition where
  a : ℚ
  b : ℚ
  c : ℚ
deriving DecidableEq, Repr

namespace Composition

/-- Source `Composition.total`: `math.fsum([a, b, c])`, exact over `ℚ`. -/
def total (comp : Composition) : ℚ := comp.a + comp.b + comp.c

/-- Source `Composition.normalized`: raises `CompositionError` when
`abs(total) < EPSILON_ZERO`; the raise is modelled as `none`. -/
def normalized (comp : Composition) : Option (ℚ × ℚ × ℚ) :=
  if |comp.total| < EPSILON_ZERO then none
  else some (comp.a / comp.total, comp.b / comp.total, comp.c / comp.total)

/-- Source `Composition.is_valid`: `total > EPSILON_ZERO`. -/
def is_valid (comp : Composition) : Bool := decide (EPSILON_ZERO < comp.total)

/-- Source `Composition.is_physically_valid`: valid and every normalized coordinate
is at least `-EPSILON_BOUNDARY`. -/
def is_physically_valid (comp : Composition) : Bool :=
  if comp.is_valid then
    match comp.normalized with
    | some n =>
        decide (-EPSILON_BOUNDARY ≤ n.1) && decide (-EPSILON_BOUNDARY ≤ n.2.1) &&
          decide (-EPSILON_BOUNDARY ≤ n.2.2)
    | none => false
  else false

/-- Source `Composition.vertex_a`. -/
def vertex_a : Composition := ⟨1, 0, 0⟩

/-- Source `Composition.vertex_b`. -/
def vertex_b : Composition := ⟨0, 1, 0⟩

/-- Source `Composition.vertex_c`. -/
def vertex_c : Composition := ⟨0, 0, 1⟩

/-- Source `Composition.normalized_is_close`: absolute-tolerance comparison of the
normalized triples; `False` when either side fails to normalize.  The
default argument `atol=COMPOSITION_COMPARISON_ATOL` is passed explicitly at
the call sites below. -/
def normalized_is_close (comp other : Composition) (atol : ℚ) : Bool :=
  match comp.normalized, other.normalized with
  | some n1, some n2 =>
      decide (|n1.1 - n2.1| < atol) && decide (|n1.2.1 - n2.2.1| < atol) &&
        decide (|n1.2.2 - n2.2.2| < atol)
  | _, _ => false

end Composition

/-- Source `get_vertices`: Cartesian coordinates of the triangle's vertices
`(A, B, C)` for the given orientation. -/
def get_vertices (is_inverted : Bool) : (ℚ × ℚ) × (ℚ × ℚ) × (ℚ × ℚ) :=
  if is_inverted then ((0, TRIANGLE_HEIGHT), (1, TRIANGLE_HEIGHT), (1/2, 0))
  else ((0, 0), (1, 0), (1/2, TRIANGLE_HEIGHT))

/-- Source `bary_to_cart`: `a*v_a + b*v_b + c*v_c` on the normalized triple; the
`CompositionError` of `normalized` propagates (modelled as `none`). -/
def bary_to_cart (comp : Composition) (is_inverted : Bool) : Option (ℚ × ℚ) :=
  match comp.normalized with
  | none => none
  | some n =>
      let v := get_vertices is_inverted
      some (n.1 * v.1.1 + n.2.1 * v.2.1.1 + n.2.2 * v.2.2.1,
            n.1 * v.1.2 + n.2.1 * v.2.1.2 + n.2.2 * v.2.2.2)

/-- Source `_clamp_barycentric`: snaps micro-noise (`abs(val) < EPSILON_ZERO`)
exactly to `0.0`. -/
def _clamp_barycentric (val : ℚ) : ℚ :=
  if |val| < EPSILON_ZERO then 0 else val

/-- Source `cart_to_bary`: closed-form analytic inverse per orientation, followed by
clamping of each component.  The inverted branch's dead first assignment
`c = 1 - y/h` (immediately overwritten by the `y_prime` derivation) is
omitted.  The NaN/Inf input check is vacuous over `ℚ`. -/
def cart_to_bary (x y : ℚ) (is_inverted : Bool) : Composition :=
  let h := TRIANGLE_HEIGHT
  if !is_inverted then
    let c := y / h
    let b := x - c * (1/2)
    let a := 1 - b - c
    ⟨_clamp_barycentric a, _clamp_barycentric b, _clamp_barycentric c⟩
  else
    let y_prime := h - y
    let c_prime := y_prime / h
    let b_prime := x - c_prime * (1/2)
    let a_prime := 1 - b_prime - c_prime
    ⟨_clamp_barycentric a_prime, _clamp_barycentric b_prime, _clamp_barycentric c_prime⟩

/-- Source `solve_intersection`: converts the four compositions to upright Cartesian
coordinates (a `CompositionError` is caught and yields `None`), then solves
the line-line intersection by the 2D cross-product form; parallel lines
(`abs(denom) < EPSILON_ZERO`) yield `None`. -/
def solve_intersection (p1_comp p2_comp p3_comp p4_comp : Composition) :
    Option Composition :=
  match bary_to_cart p1_comp false, bary_to_cart p2_comp false,
      bary_to_cart p3_comp false, bary_to_cart p4_comp false with
  | some A, some B, some C, some D =>
      let R := (B.1 - A.1, B.2 - A.2)
      let S := (D.1 - C.1, D.2 - C.2)
      let denom := R.1 * S.2 - R.2 * S.1
      if |denom| < EPSILON_ZERO then none
      else
        let AC := (C.1 - A.1, C.2 - A.2)
        let numer_t := AC.1 * S.2 - AC.2 * S.1
        let t := numer_t / denom
        some (cart_to_bary (A.1 + t * R.1) (A.2 + t * R.2) false)
  | _, _, _, _ => none

/-- Source `get_line_triangle_intersections`, one loop step — intersect the
`p1`–`p2` line with one triangle edge, keep the result when every normalized
coordinate is at least `-EPSILON_BOUNDARY`, and drop duplicates that are
`normalized_is_close` to an already collected point. -/
def considerEdge (p1 p2 : Composition) (acc : List Composition)
    (edge : Composition × Composition) : List Composition :=
  match solve_intersection p1 p2 edge.1 edge.2 with
  | none => acc
  | some res =>
      match res.normalized with
      | none => acc
      | some vals =>
          if -EPSILON_BOUNDARY ≤ vals.1 ∧ -EPSILON_BOUNDARY ≤ vals.2.1 ∧
              -EPSILON_BOUNDARY ≤ vals.2.2 then
            if acc.any (fun existing =>
                existing.normalized_is_close res COMPOSITION_COMPARISON_ATOL) then acc
            else acc ++ [res]
          else acc

/-- Source `get_line_triangle_intersections`: intersections of the infinite line
through `p1`, `p2` with the three triangle edges `AB` (`c=0`), `BC` (`a=0`),
`CA` (`b=0`), filtered to the triangle (with boundary tolerance) and
deduplicated. -/
def get_line_triangle_intersections (p1 p2 : Composition) : List Composition :=
  [(Composition.vertex_a, Composition.vertex_b),
   (Composition.vertex_b, Composition.vertex_c),
   (Composition.vertex_c, Composition.vertex_a)].foldl (considerEdge p1 p2) []

/-- Modelled from the spec: `delta/exceptions.py` is absent from `src/`; the
spec's error taxonomy names a "degenerate composition" condition
(`CompositionError`) and a "degenerate basis" condition
(`DegenerateBasisError`). -/
inductive MathError where
  | compositionError
  | degenerateBasis
deriving DecidableEq, Repr

deriving instance DecidableEq for Except

/-- dot product of normalized triples, `np.dot`. -/
def dot3 (u v : ℚ × ℚ × ℚ) : ℚ := u.1 * v.1 + u.2.1 * v.2.1 + u.2.2 * v.2.2

/-- componentwise difference of normalized triples. -/
def sub3 (u v : ℚ × ℚ × ℚ) : ℚ × ℚ × ℚ := (u.1 - v.1, u.2.1 - v.2.1, u.2.2 - v.2.2)

/-- Cross product (3D) of normalized triples, `np.cross`. -/
def cross3 (u v : ℚ × ℚ × ℚ) : ℚ × ℚ × ℚ :=
  (u.2.1 * v.2.2 - u.2.2 * v.2.1, u.2.2 * v.1 - u.1 * v.2.2, u.1 * v.2.1 - u.2.1 * v.1)

/-- squared Euclidean norm of a triple. -/
def normSq3 (u : ℚ × ℚ × ℚ) : ℚ := u.1 * u.1 + u.2.1 * u.2.1 + u.2.2 * u.2.2

/-- Source `delta/math_utils.py` `get_lever_fraction`: lever-rule parameter `t` with
`Point = Start + t*(End - Start)` in normalized space; raises
`DegenerateBasisError` when the basis is degenerate, and propagates the
`CompositionError` of `normalized`. -/
def get_lever_fraction (p_start p_end p_point : Composition) : Except MathError ℚ :=
  match p_start.normalized, p_end.normalized, p_point.normalized with
  | some s, some e, some p =>
      let vec_line := sub3 e s
      let vec_point := sub3 p s
      let len_sq := dot3 vec_line vec_line
      if len_sq < EPSILON_ZERO then .error .degenerateBasis
      else .ok (dot3 vec_point vec_line / len_sq)
  | _, _, _ => .error .compositionError

/-- Source `are_compositions_collinear`: three compositions are collinear when the
cross-product area of the spanned parallelogram is below `tol`; a
`CompositionError` on any input is caught and treated as collinear. -/
def are_compositions_collinear (p1 p2 p3 : Composition) (tol : ℚ) : Prop :=
  match p1.normalized, p2.normalized, p3.normalized with
  | some a1, some a2, some a3 =>
      Real.sqrt (normSq3 (cross3 (sub3 a2 a1) (sub3 a3 a1)) : ℚ) < (tol : ℝ)
  | _, _, _ => True

/-- Source `get_triangle_area`: half the cross-product magnitude; a
`CompositionError` on any input is caught and yields `0.0`. -/
noncomputable def get_triangle_area (p1 p2 p3 : Composition) : ℝ :=
  match p1.normalized, p2.normalized, p3.normalized with
  | some a1, some a2, some a3 =>
      Real.sqrt (normSq3 (cross3 (sub3 a2 a1) (sub3 a3 a1)) : ℚ) / 2
  | _, _, _ => 0

/-- Continued-fraction loop of CPython's `Fraction.limit_denominator`: walks
the convergents `p/q` of `n/d` while the next denominator stays within
`maxd`.  For the callers below, `n`, `d` and the convergents are
non-negative.  The structural `fuel` argument only makes the recursion
total: `d` strictly decreases across iterations (`d ← n % d < d`), so the
initial fuel `d + 1` supplied by `limit_denominator` is never exhausted, and
the `d = 0` guard mirrors CPython, where the loop always breaks before the
denominator reaches zero. -/
def cfLoop (maxd : ℕ) : ℕ → ℕ → ℕ → ℕ → ℕ → ℕ → ℕ → ℕ × ℕ × ℕ × ℕ
  | 0, p0, q0, p1, q1, _, _ => (p0, q0, p1, q1)
  | fuel + 1, p0, q0, p1, q1, n, d =>
      if d = 0 then (p0, q0, p1, q1)
      else
        let a := n / d
        let q2 := q0 + a * q1
        if maxd < q2 then (p0, q0, p1, q1)
        else cfLoop maxd fuel p1 q1 (p0 + a * p1) q2 d (n % d)

/-- CPython's `Fraction.limit_denominator(max_denominator)` for non-negative
arguments (every call site below passes `abs(f)`): the closest rational with
denominator at most `max_denominator`, ties resolved toward the
upper-convergent candidate exactly as CPython does. -/
def limit_denominator (q : ℚ) (max_denominator : ℕ) : ℚ :=
  if q.den ≤ max_denominator then q
  else
    let r := cfLoop max_denominator (q.den + 1) 0 1 1 0 q.num.natAbs q.den
    let k := (max_denominator - r.2.1) / r.2.2.2
    let bound1 : ℚ := ((r.1 + k * r.2.2.1 : ℕ) : ℚ) / ((r.2.1 + k * r.2.2.2 : ℕ) : ℚ)
    let bound2 : ℚ := (r.2.2.1 : ℚ) / (r.2.2.2 : ℚ)
    if |bound2 - q| ≤ |bound1 - q| then bound2 else bound1

/-- Source `_lcm`: least common multiple with the source's zero guard (`max` of the
absolute values when either argument is zero). -/
def _lcm (a b : ℕ) : ℕ :=
  if a ≠ 0 ∧ b ≠ 0 then a * b / Nat.gcd a b else max a b

/-- One iteration of the tier loop of `delta/math_utils.py`
`find_integer_ratio`: rational approximation at denominator limit `limit`,
common-denominator integers, GCD reduction, and the accuracy validation.
`none` models `continue`.  The Python `except` clause around the body is
unreachable in exact arithmetic (no overflow, and `Fraction()` and
`limit_denominator` with a positive limit never raise). -/
def tierAttempt (normalized : List ℚ) (limit : ℕ) : Option (List ℤ) :=
  let fractions := normalized.map (fun f => limit_denominator |f| limit)
  let denoms := fractions.map (fun fr => fr.den)
  let common_denom := denoms.foldl _lcm 1
  let integers : List ℤ := fractions.map (fun fr => fr.num * ((common_denom / fr.den : ℕ) : ℤ))
  let non_zero_ints := integers.filter (fun i => i ≠ 0)
  if non_zero_ints.isEmpty then none
  else
    let common_gcd : ℕ := non_zero_ints.foldl (fun g i => Nat.gcd g i.natAbs) 0
    let reduced := if 1 < common_gcd then integers.map (fun i => Int.fdiv i common_gcd) else integers
    let sum_int : ℚ := (reduced.map (fun i => (Int.cast i : ℚ))).sum
    if sum_int < EPSILON_ZERO then none
    else
      let recalc := reduced.map (fun i => (Int.cast i : ℚ) / sum_int)
      if (normalized.zip recalc).all (fun pr => decide (|pr.1 - pr.2| ≤ RATIO_TOLERANCE)) then
        some reduced
      else none

/-- The `for limit in tiers` loop: first tier whose attempt returns. -/
def tryTiers (normalized : List ℚ) : List ℕ → Option (List ℤ)
  | [] => none
  | limit :: rest =>
      match tierAttempt normalized limit with
      | some integers => some integers
      | none => tryTiers normalized rest

/-- The denominator-limit tiers `[100, 10000, RATIO_MAX_DENOMINATOR]`. -/
def tiers : List ℕ := [100, 10000, RATIO_MAX_DENOMINATOR]

/-- Python's built-in `round` (round half to even), as used by
`_fallback_scaling`. -/
def pyRound (q : ℚ) : ℤ :=
  let f := ⌊q⌋
  let r := q - f
  if r < 1/2 then f
  else if 1/2 < r then f + 1
  else if f % 2 = 0 then f else f + 1

/-- Source `_fallback_scaling`: scale the normalized vector by `100000`, round,
correct the largest entry so the sum matches the scale, reduce by the GCD of
the non-zero entries. -/
def _fallback_scaling (normalized : List ℚ) : List ℤ :=
  let SCALE : ℤ := 100000
  let ints := normalized.map (fun f => pyRound (f * (SCALE : ℚ)))
  let current_sum := ints.sum
  let diff := SCALE - current_sum
  let corrected :=
    if diff ≠ 0 ∧ ¬ ints.isEmpty then
      let max_val := ints.foldl max (ints.headD 0)
      if 0 < max_val then
        match ints.findIdx? (fun i => i = max_val) with
        | some max_idx => ints.set max_idx (max_val + diff)
        | none => ints
      else ints
    else ints
  let non_zero := corrected.filter (fun i => i ≠ 0)
  if ¬ non_zero.isEmpty then
    let common : ℕ := non_zero.foldl (fun g i => Nat.gcd g i.natAbs) 0
    if 1 < common then corrected.map (fun i => Int.fdiv i common) else corrected
  else corrected

/-- Source `delta/math_utils.py` `find_integer_ratio`: tiered search for an integer
ratio with the deterministic scaling fallback. -/
def find_integer_ratio (floats : List ℚ) : List ℤ :=
  if floats.isEmpty then []
  else if floats.all (fun f => decide (|f| < EPSILON_ZERO)) then
    List.replicate floats.length 0
  else
    let total_val := floats.sum
    if |total_val| < EPSILON_ZERO then List.replicate floats.length 0
    else
      let normalized := floats.map (fun f => f / total_val)
      match tryTiers normalized tiers with
      | some integers => integers
      | none => _fallback_scaling normalized

/-- The spec's validation postcondition, stated in the spec's words: dividing
each output integer by the output's sum reproduces the corresponding
normalized input within the fixed absolute ratio tolerance. -/
def ratioValidates (normalized : List ℚ) (integers : List ℤ) : Bool :=
  let sum_int : ℚ := (integers.map (fun i => (Int.cast i : ℚ))).sum
  (normalized.zip (integers.map (fun i => (Int.cast i : ℚ) / sum_int))).all
    (fun pr => decide (|pr.1 - pr.2| ≤ RATIO_TOLERANCE))

namespace Core

/-- Source `core/math_utils.py` `get_lever_fraction` (legacy version): identical to
the current version except that a degenerate basis returns `0.0` ("for
compatibility", per its comment) instead of raising. -/
def get_lever_fraction (p_start p_end p_point : Composition) : Except MathError ℚ :=
  match p_start.normalized, p_end.normalized, p_point.normalized with
  | some s, some e, some p =>
      let vec_line := sub3 e s
      let vec_point := sub3 p s
      let len_sq := dot3 vec_line vec_line
      if len_sq < EPSILON_ZERO then .ok 0
      else .ok (dot3 vec_point vec_line / len_sq)
  | _, _, _ => .error .compositionError

/-- Modelled from the spec: `core/constants.py` is absent from `src/`;
`RATIO_MAX_VALUE` caps the integers the legacy ratio finder may return.  Its
value is irrelevant to the claims settled here. -/
def RATIO_MAX_VALUE : ℤ := 1000000

/-- Source `core/math_utils.py` `find_integer_ratio` (legacy version): returns
`None` for empty or all-zero input, for components below `-1e-9`, and for
results exceeding `RATIO_MAX_VALUE`; a single denominator limit, no tiers,
no validation.  The broad `except` is unreachable in exact arithmetic. -/
def find_integer_ratio (floats : List ℚ) : Option (List ℤ) :=
  if floats.isEmpty ∨ floats.all (fun f => f = 0) then none
  else if floats.any (fun f => f < -(1/10^9)) then none
  else
    let fractions := floats.map (fun f => limit_denominator |f| RATIO_MAX_DENOMINATOR)
    let denominators := fractions.map (fun fr => fr.den)
    let common_denom :=
      match denominators with
      | [] => 1
      | d :: rest => rest.foldl (fun x y => x * y / Nat.gcd x y) d
    let integers : List ℤ := fractions.map (fun fr => fr.num * ((common_denom / fr.den : ℕ) : ℤ))
    let common_gcd : ℕ :=
      (integers.filter (fun i => i ≠ 0)).foldl (fun g i => Nat.gcd g i.natAbs)
        (integers.headD 1).natAbs
    let reduced := if 1 < common_gcd then integers.map (fun i => Int.fdiv i common_gcd) else integers
    if reduced.any (fun i => RATIO_MAX_VALUE < i) then none
    else some reduced

end Core

/-- A point kept by `get_line_triangle_intersections`: it normalizes and every
normalized coordinate is at least `-EPSILON_BOUNDARY`. -/
def goodPoint (r : Composition) : Prop :=
  ∃ n, r.normalized = some n ∧ -EPSILON_BOUNDARY ≤ n.1 ∧ -EPSILON_BOUNDARY ≤ n.2.1 ∧
    -EPSILON_BOUNDARY ≤ n.2.2

/-- Two compositions that are not `normalized_is_close` at the default
comparison tolerance. -/
def notClose (x y : Composition) : Prop :=
  Composition.normalized_is_close x y COMPOSITION_COMPARISON_ATOL = false

/-! ## Helper lemmas -/

theorem bary_to_cart_of_normalized_none (comp : Composition) (inv : Bool)
    (h : comp.normalized = none) : bary_to_cart comp inv = none := by
  unfold bary_to_cart
  rw [h]

theorem clamp_zero_or_large (v : ℚ) :
    _clamp_barycentric v = 0 ∨ EPSILON_ZERO ≤ |_clamp_barycentric v| := by
  unfold _clamp_barycentric
  split
  · exact Or.inl rfl
  · exact Or.inr (not_lt.mp (by assumption))

theorem clamp_close (v : ℚ) : |_clamp_barycentric v - v| ≤ EPSILON_ZERO := by
  unfold _clamp_barycentric
  split
  · rw [zero_sub, abs_neg]
    exact le_of_lt (by assumption)
  · simpa using le_of_lt (by norm_num [EPSILON_ZERO] : (0 : ℚ) < EPSILON_ZERO)

theorem normalized_sum_eq_one (comp : Composition) (n : ℚ × ℚ × ℚ)
    (hn : comp.normalized = some n) : n.1 + n.2.1 + n.2.2 = 1 := by
  unfold Composition.normalized at hn
  split at hn
  · exact absurd hn (by simp)
  next hcond =>
    have ht : comp.total ≠ 0 := by
      intro h0
      exact hcond (by rw [h0, abs_zero]; norm_num [EPSILON_ZERO])
    injection hn with hn
    subst hn
    have : comp.a / comp.total + comp.b / comp.total + comp.c / comp.total = 1 := by
      rw [div_add_div_same, div_add_div_same, Composition.total] at *
      exact div_self ht
    simpa using this

/-! ## Claim theorems -/

/-- C10: if any of the four compositions passed to `solve_intersection`
cannot be normalized (`|total| < ε_zero`), `solve_intersection` returns
`None` instead of propagating the degenerate-composition error. -/
theorem solve_intersection_degenerate_input (p1 p2 p3 p4 : Composition)
    (h : p1.normalized = none ∨ p2.normalized = none ∨ p3.normalized = none ∨
      p4.normalized = none) :
    solve_intersection p1 p2 p3 p4 = none := by
  unfold solve_intersection
  cases h1 : bary_to_cart p1 false <;> cases h2 : bary_to_cart p2 false <;>
    cases h3 : bary_to_cart p3 false <;> cases h4 : bary_to_cart p4 false <;>
      try rfl
  rcases h with h | h | h | h
  · rw [bary_to_cart_of_normalized_none p1 false h] at h1; exact absurd h1 (by simp)
  · rw [bary_to_cart_of_normalized_none p2 false h] at h2; exact absurd h2 (by simp)
  · rw [bary_to_cart_of_normalized_none p3 false h] at h3; exact absurd h3 (by simp)
  · rw [bary_to_cart_of_normalized_none p4 false h] at h4; exact absurd h4 (by simp)

/-- C10 witness: a zero-total first endpoint yields `None`. -/
theorem solve_intersection_degenerate_input_witness :
    solve_intersection ⟨0, 0, 0⟩ Composition.vertex_a Composition.vertex_b
      Composition.vertex_c = none :=
  solve_intersection_degenerate_input _ _ _ _ (Or.inl (by with_unfolding_all decide))

/-- C5: when the two lines given to `solve_intersection` are parallel — the
cross product of the Cartesian direction vectors is below `ε_zero` in
absolute value — it returns `None` as a normal outcome (no error). -/
theorem solve_intersection_parallel (p1 p2 p3 p4 : Composition) (A B C D : ℚ × ℚ)
    (h1 : bary_to_cart p1 false = some A) (h2 : bary_to_cart p2 false = some B)
    (h3 : bary_to_cart p3 false = some C) (h4 : bary_to_cart p4 false = some D)
    (hpar : |(B.1 - A.1) * (D.2 - C.2) - (B.2 - A.2) * (D.1 - C.1)| < EPSILON_ZERO) :
    solve_intersection p1 p2 p3 p4 = none := by
  unfold solve_intersection
  rw [h1, h2, h3, h4]
  simp only [if_pos hpar]

/-- C5 witness: the edge `A`–`B` and the mid-line through `(1,0,1)` and
`(0,1,1)` have proportional directions and produce `None`. -/
theorem solve_intersection_parallel_witness :
    bary_to_cart ⟨1, 0, 1⟩ false = some (1/4, TRIANGLE_HEIGHT / 2) ∧
    solve_intersection Composition.vertex_a Composition.vertex_b ⟨1, 0, 1⟩ ⟨0, 1, 1⟩ = none := by
  have hA : bary_to_cart Composition.vertex_a false = some (0, 0) := by
    unfold bary_to_cart Composition.normalized Composition.total get_vertices
      Composition.vertex_a
    norm_num [EPSILON_ZERO]
  have hB : bary_to_cart Composition.vertex_b false = some (1, 0) := by
    unfold bary_to_cart Composition.normalized Composition.total get_vertices
      Composition.vertex_b
    norm_num [EPSILON_ZERO]
  have hC : bary_to_cart ⟨1, 0, 1⟩ false = some (1/4, TRIANGLE_HEIGHT / 2) := by
    unfold bary_to_cart Composition.normalized Composition.total get_vertices
    norm_num [EPSILON_ZERO]
    ring
  have hD : bary_to_cart ⟨0, 1, 1⟩ false = some (3/4, TRIANGLE_HEIGHT / 2) := by
    unfold bary_to_cart Composition.normalized Composition.total get_vertices
    norm_num [EPSILON_ZERO]
    ring
  refine ⟨hC, solve_intersection_parallel _ _ _ _ (0, 0) (1, 0) (1/4, TRIANGLE_HEIGHT / 2)
    (3/4, TRIANGLE_HEIGHT / 2) hA hB hC hD ?_⟩
  norm_num [EPSILON_ZERO]

/-- C8: every component produced by `cart_to_bary` has been clamped — it is
either exactly `0.0` or at least `ε_zero` in magnitude (equivalently, any
component within `ε_zero` of zero is snapped exactly to `0.0`) — and in
particular `cart_to_bary(0.5, -1e-17, upright)` has `c` exactly `0.0`. -/
theorem cart_to_bary_clamped :
    (∀ (x y : ℚ) (inv : Bool),
      ((cart_to_bary x y inv).a = 0 ∨ EPSILON_ZERO ≤ |(cart_to_bary x y inv).a|) ∧
      ((cart_to_bary x y inv).b = 0 ∨ EPSILON_ZERO ≤ |(cart_to_bary x y inv).b|) ∧
      ((cart_to_bary x y inv).c = 0 ∨ EPSILON_ZERO ≤ |(cart_to_bary x y inv).c|)) ∧
    (cart_to_bary (1/2) (-(1/10^17)) false).c = 0 := by
  constructor
  · intro x y inv
    cases inv <;>
      exact ⟨clamp_zero_or_large _, clamp_zero_or_large _, clamp_zero_or_large _⟩
  · with_unfolding_all decide

/-- C7: the two medians of the reference triangle — `A` to `Mid(BC)` and `B`
to `Mid(AC)` — intersect, and the intersection's normalized coordinates are
the centroid `(1/3, 1/3, 1/3)` within `1e-9` in every component (exactly, in
fact). -/
theorem solve_intersection_medians :
    ∃ r n, solve_intersection ⟨1, 0, 0⟩ ⟨0, 1, 1⟩ ⟨0, 1, 0⟩ ⟨1, 0, 1⟩ = some r ∧
      r.normalized = some n ∧
      |n.1 - 1/3| ≤ 1/10^9 ∧ |n.2.1 - 1/3| ≤ 1/10^9 ∧ |n.2.2 - 1/3| ≤ 1/10^9 := by
  refine ⟨⟨1/3, 1/3, 1/3⟩, (1/3, 1/3, 1/3), by with_unfolding_all decide, by with_unfolding_all decide, by with_unfolding_all decide, by with_unfolding_all decide,
    by with_unfolding_all decide⟩

/-- C2 counterexample: the claim quotes both `delta/math_utils.py` and
`core/math_utils.py`, but the legacy `core` version silently returns
`0.0` for a coincident basis (no degenerate-basis failure), and even the
current `delta` version returns `0` for a point distinct from `start` (one
whose offset is orthogonal to the basis direction), so `0` does not uniquely
mean "point is at start". -/
theorem get_lever_fraction_counterexample :
    Core.get_lever_fraction ⟨1/2, 3/10, 1/5⟩ ⟨1/2, 3/10, 1/5⟩ ⟨1, 0, 0⟩ = .ok 0 ∧
    get_lever_fraction ⟨1/3, 1/3, 1/3⟩ ⟨1/2, 1/2, 0⟩ ⟨1/2, 1/6, 1/3⟩ = .ok 0 ∧
    (⟨1/2, 1/6, 1/3⟩ : Composition) ≠ ⟨1/3, 1/3, 1/3⟩ :=
  ⟨by with_unfolding_all decide, by with_unfolding_all decide, by with_unfolding_all decide⟩

/-- C2 (amended): whenever the normalized basis is degenerate
(`|end - start|² < ε_zero`), the current `delta` `get_lever_fraction` fails
with the named degenerate-basis condition (so it never returns `0.0` there),
while the legacy `core` version silently returns `0.0`. -/
theorem get_lever_fraction_degenerate (p_start p_end p_point : Composition)
    (s e p : ℚ × ℚ × ℚ)
    (hs : p_start.normalized = some s) (he : p_end.normalized = some e)
    (hp : p_point.normalized = some p)
    (hdeg : dot3 (sub3 e s) (sub3 e s) < EPSILON_ZERO) :
    get_lever_fraction p_start p_end p_point = .error .degenerateBasis ∧
    Core.get_lever_fraction p_start p_end p_point = .ok 0 := by
  unfold get_lever_fraction Core.get_lever_fraction
  rw [hs, he, hp]
  constructor <;> simp only [if_pos hdeg]

/-- C2 witness: a concrete coincident basis. -/
theorem get_lever_fraction_degenerate_witness :
    get_lever_fraction ⟨1/2, 1/4, 1/4⟩ ⟨1/2, 1/4, 1/4⟩ ⟨1, 0, 0⟩ = .error .degenerateBasis ∧
    Core.get_lever_fraction ⟨1/2, 1/4, 1/4⟩ ⟨1/2, 1/4, 1/4⟩ ⟨1, 0, 0⟩ = .ok 0 :=
  get_lever_fraction_degenerate _ _ _ (1/2, 1/4, 1/4) (1/2, 1/4, 1/4) (1, 0, 0)
    (by norm_num [Composition.normalized, Composition.total, EPSILON_ZERO])
    (by norm_num [Composition.normalized, Composition.total, EPSILON_ZERO])
    (by norm_num [Composition.normalized, Composition.total, EPSILON_ZERO])
    (by norm_num [dot3, sub3, EPSILON_ZERO])

/-- C9: if any of the three inputs cannot be normalized, neither function
raises: `are_compositions_collinear` returns `True` and `get_triangle_area`
returns `0.0`. -/
theorem collinear_area_degenerate (p1 p2 p3 : Composition) (tol : ℚ)
    (h : p1.normalized = none ∨ p2.normalized = none ∨ p3.normalized = none) :
    are_compositions_collinear p1 p2 p3 tol ∧ get_triangle_area p1 p2 p3 = 0 := by
  unfold are_compositions_collinear get_triangle_area
  cases h1 : p1.normalized <;> cases h2 : p2.normalized <;> cases h3 : p3.normalized <;>
    first
      | exact ⟨trivial, rfl⟩
      | (rw [h1, h2, h3] at h; rcases h with h | h | h <;> exact absurd h (by simp))

/-- C9 witness: a zero-total composition makes the triple collinear with
area `0`. -/
theorem collinear_area_degenerate_witness :
    (⟨0, 0, 0⟩ : Composition).normalized = none ∧
    (are_compositions_collinear ⟨0, 0, 0⟩ Composition.vertex_a Composition.vertex_b (1/10^4) ∧
      get_triangle_area ⟨0, 0, 0⟩ Composition.vertex_a Composition.vertex_b = 0) := by
  have hn : (⟨0, 0, 0⟩ : Composition).normalized = none := by
    norm_num [Composition.normalized, Composition.total, EPSILON_ZERO]
  exact ⟨hn, collinear_area_degenerate _ _ _ _ (Or.inl hn)⟩

/-- C3 counterexample: the claim quotes both versions of
`find_integer_ratio`, but the legacy `core` version maps the empty list to
`None`, not to the empty list; and (for any positive zero-epsilon) a small
enough single positive value maps to `[0]`, not `[1]`, because the all-zero
guard fires first. -/
theorem find_integer_ratio_counterexample :
    Core.find_integer_ratio [] = none ∧
    ((0 : ℚ) < 1/10^13 ∧ find_integer_ratio [1/10^13] = [0]) :=
  ⟨by with_unfolding_all decide, by norm_num, by with_unfolding_all decide⟩

/-- C3 (amended): the current `delta` `find_integer_ratio` reproduces the
edge cases — `[] → []`; an all-zero input of length `n` maps to `n` integer
zeros; a single positive value at least `ε_zero` maps to `[1]` (values below
`ε_zero` take the all-zero branch instead); `[0.5, 0, 0.5] → [1, 0, 1]`; and
`[1e-10, 1 - 1e-10]` yields a two-element integer list with no exception —
while the legacy `core` version returns `None` for the empty list. -/
theorem find_integer_ratio_edge_cases :
    find_integer_ratio [] = [] ∧
    (∀ n : ℕ, find_integer_ratio (List.replicate n 0) = List.replicate n 0) ∧
    (∀ v : ℚ, EPSILON_ZERO ≤ v → find_integer_ratio [v] = [1]) ∧
    find_integer_ratio [1/2, 0, 1/2] = [1, 0, 1] ∧
    (find_integer_ratio [1/10^10, 1 - 1/10^10]).length = 2 ∧
    Core.find_integer_ratio [] = none := by
  refine ⟨rfl, ?_, ?_, by with_unfolding_all decide, by with_unfolding_all decide,
    by with_unfolding_all decide⟩
  · intro n
    cases n with
    | zero => rfl
    | succ m =>
        have hall : (List.replicate (m+1) (0:ℚ)).all
            (fun f => decide (|f| < EPSILON_ZERO)) = true := by
          rw [List.all_eq_true]
          intro f hf
          rw [List.eq_of_mem_replicate hf]
          simp only [decide_eq_true_eq]
          norm_num [EPSILON_ZERO]
        unfold find_integer_ratio
        rw [hall]
        simp [List.replicate_succ]
  · intro v hv
    have hvpos : (0:ℚ) < v := lt_of_lt_of_le (by norm_num [EPSILON_ZERO]) hv
    have hvne : v ≠ 0 := ne_of_gt hvpos
    have habs : ¬ |v| < EPSILON_ZERO := not_lt.mpr (le_trans hv (le_abs_self v))
    have htiers : tryTiers [1] tiers = some [1] := by with_unfolding_all decide
    unfold find_integer_ratio
    simp only [List.isEmpty_cons, List.all_cons, List.all_nil, List.sum_cons, List.sum_nil,
      List.map_cons, List.map_nil, add_zero, Bool.and_true, if_neg habs, decide_eq_true_eq]
    rw [div_self hvne]
    simp [htiers, habs]

/-- C3 witness: the single-value case at `v = 1`. -/
theorem find_integer_ratio_edge_cases_witness :
    EPSILON_ZERO ≤ (1 : ℚ) ∧ find_integer_ratio [1] = [1] :=
  ⟨by norm_num [EPSILON_ZERO],
    find_integer_ratio_edge_cases.2.2.1 1 (by norm_num [EPSILON_ZERO])⟩

theorem tierAttempt_validates (normalized : List ℚ) (limit : ℕ) (out : List ℤ)
    (h : tierAttempt normalized limit = some out) : ratioValidates normalized out = true := by
  unfold tierAttempt at h
  dsimp only at h
  split at h
  · exact absurd h (by simp)
  · split at h <;>
    · split at h
      · exact absurd h (by simp)
      · split at h
        · rw [Option.some.injEq] at h
          subst h
          unfold ratioValidates
          dsimp only
          assumption
        · exact absurd h (by simp)

theorem tryTiers_first (normalized : List ℚ) (ts : List ℕ) (out : List ℤ)
    (h : tryTiers normalized ts = some out) :
    ∃ pre limit post, ts = pre ++ limit :: post ∧
      (∀ l ∈ pre, tierAttempt normalized l = none) ∧
      tierAttempt normalized limit = some out := by
  induction ts with
  | nil => exact absurd h (by simp [tryTiers])
  | cons limit rest ih =>
      rw [tryTiers] at h
      cases ha : tierAttempt normalized limit with
      | some ints =>
          rw [ha] at h
          exact ⟨[], limit, rest, rfl, by simp, by rw [ha]; exact h⟩
      | none =>
          rw [ha] at h
          obtain ⟨pre, l, post, heq, hall, hl⟩ := ih h
          refine ⟨limit :: pre, l, post, by rw [heq]; rfl, ?_, hl⟩
          intro l' hl'
          rcases List.mem_cons.mp hl' with h' | h'
          · rw [h']; exact ha
          · exact hall l' h'

/-- C4: whenever `find_integer_ratio` returns from one of the
denominator-limit tiers (rather than from the scaling fallback), the output
satisfies the validation postcondition — every output integer divided by the
output's sum reproduces the corresponding normalized input within
`RATIO_TOLERANCE` — and the tier used is the first (smallest limit, in the
order `[100, 10000, MAX]`) whose attempt succeeds, every earlier tier having
been rejected. -/
theorem find_integer_ratio_tier_postcondition (floats : List ℚ) (out : List ℤ)
    (h1 : floats.isEmpty = false)
    (h2 : floats.all (fun f => decide (|f| < EPSILON_ZERO)) = false)
    (h3 : ¬ |floats.sum| < EPSILON_ZERO)
    (h4 : tryTiers (floats.map (fun f => f / floats.sum)) tiers = some out) :
    find_integer_ratio floats = out ∧
    ratioValidates (floats.map (fun f => f / floats.sum)) out = true ∧
    ∃ pre limit post, tiers = pre ++ limit :: post ∧
      (∀ l ∈ pre, tierAttempt (floats.map (fun f => f / floats.sum)) l = none) ∧
      tierAttempt (floats.map (fun f => f / floats.sum)) limit = some out := by
  obtain ⟨pre, limit, post, heq, hpre, hlim⟩ := tryTiers_first _ _ _ h4
  refine ⟨?_, tierAttempt_validates _ limit _ hlim, pre, limit, post, heq, hpre, hlim⟩
  unfold find_integer_ratio
  rw [h1, h2]
  simp only [Bool.false_eq_true, if_false, if_neg h3, h4]

/-- C4 witness: `[0.5, 0.5]` returns `[1, 1]` from the first tier and
validates. -/
theorem find_integer_ratio_tier_postcondition_witness :
    find_integer_ratio [1/2, 1/2] = [1, 1] ∧
    ratioValidates ([1/2, 1/2].map (fun f => f / ([1/2, 1/2] : List ℚ).sum)) [1, 1] = true := by
  have h := find_integer_ratio_tier_postcondition [1/2, 1/2] [1, 1] rfl
    (by with_unfolding_all decide) (by with_unfolding_all decide)
    (by with_unfolding_all decide)
  exact ⟨h.1, h.2.1⟩

/-- Algebraic core of the round trip: over exact rationals the analytic
inverse reproduces the normalized triple exactly, up to the final clamping of
each component. -/
theorem bary_cart_roundtrip_clamp (comp : Composition) (inv : Bool) (n : ℚ × ℚ × ℚ)
    (hn : comp.normalized = some n) :
    ∃ x y, bary_to_cart comp inv = some (x, y) ∧
      cart_to_bary x y inv =
        ⟨_clamp_barycentric n.1, _clamp_barycentric n.2.1, _clamp_barycentric n.2.2⟩ := by
  have hsum := normalized_sum_eq_one comp n hn
  have hH : TRIANGLE_HEIGHT ≠ 0 := by norm_num [TRIANGLE_HEIGHT]
  cases inv with
  | false =>
      refine ⟨n.1 * 0 + n.2.1 * 1 + n.2.2 * (1/2), n.1 * 0 + n.2.1 * 0 + n.2.2 * TRIANGLE_HEIGHT,
        ?_, ?_⟩
      · unfold bary_to_cart get_vertices
        rw [hn]
        rfl
      · unfold cart_to_bary
        simp only [Bool.not_false, if_true]
        have h3 : (n.1 * 0 + n.2.1 * 0 + n.2.2 * TRIANGLE_HEIGHT) / TRIANGLE_HEIGHT = n.2.2 := by
          field_simp
        rw [h3]
        have h2 : n.1 * 0 + n.2.1 * 1 + n.2.2 * (1/2) - n.2.2 * (1/2) = n.2.1 := by ring
        rw [h2]
        have h1 : 1 - n.2.1 - n.2.2 = n.1 := by linarith
        rw [h1]
  | true =>
      refine ⟨n.1 * 0 + n.2.1 * 1 + n.2.2 * (1/2),
        n.1 * TRIANGLE_HEIGHT + n.2.1 * TRIANGLE_HEIGHT + n.2.2 * 0, ?_, ?_⟩
      · unfold bary_to_cart get_vertices
        rw [hn]
        rfl
      · unfold cart_to_bary
        simp only [Bool.not_true, Bool.false_eq_true, if_false]
        have h3 : (TRIANGLE_HEIGHT - (n.1 * TRIANGLE_HEIGHT + n.2.1 * TRIANGLE_HEIGHT + n.2.2 * 0))
            / TRIANGLE_HEIGHT = n.2.2 := by
          field_simp
          linear_combination (-TRIANGLE_HEIGHT) * hsum
        rw [h3]
        have h2 : n.1 * 0 + n.2.1 * 1 + n.2.2 * (1/2) - n.2.2 * (1/2) = n.2.1 := by ring
        rw [h2]
        have h1 : 1 - n.2.1 - n.2.2 = n.1 := by linarith
        rw [h1]

/-- Unfolding of `is_physically_valid`: the composition normalizes and every
normalized coordinate is at least `-EPSILON_BOUNDARY`. -/
theorem physically_valid_spec (comp : Composition) (h : comp.is_physically_valid = true) :
    ∃ n, comp.normalized = some n ∧ -EPSILON_BOUNDARY ≤ n.1 ∧ -EPSILON_BOUNDARY ≤ n.2.1 ∧
      -EPSILON_BOUNDARY ≤ n.2.2 := by
  unfold Composition.is_physically_valid at h
  split at h
  · split at h
    next n heq =>
      simp only [Bool.and_eq_true, decide_eq_true_eq] at h
      exact ⟨n, heq, h.1.1, h.1.2, h.2⟩
    next heq => exact absurd h (by simp)
  · exact absurd h (by simp)

/-- Quantitative step for the round trip: dividing a clamped coordinate by
the clamped total moves a bounded coordinate by at most `1e-9`. -/
theorem div_close (T q nv : ℚ) (hT1 : |T - 1| ≤ 3 * EPSILON_ZERO)
    (hq : |q - nv| ≤ EPSILON_ZERO) (hnv : |nv| ≤ 1 + 2 * EPSILON_BOUNDARY) :
    |q / T - nv| ≤ 1/10^9 := by
  rcases abs_le.mp hT1 with ⟨hTa, hTb⟩
  have hTpos : 0 < T := by
    norm_num [EPSILON_ZERO] at hTa
    linarith
  have hTne : T ≠ 0 := ne_of_gt hTpos
  have key : q / T - nv = (q - nv * T) / T := by
    field_simp
    ring
  rw [key, abs_div, abs_of_pos hTpos, div_le_iff hTpos]
  have h1 : |q - nv * T| ≤ |q - nv| + |nv| * |T - 1| := by
    have e : q - nv * T = (q - nv) + nv * (1 - T) := by ring
    rw [e]
    refine (abs_add _ _).trans ?_
    rw [abs_mul, abs_sub_comm (1 : ℚ) T]
  have h2 : |nv| * |T - 1| ≤ (1 + 2 * EPSILON_BOUNDARY) * (3 * EPSILON_ZERO) :=
    mul_le_mul hnv hT1 (abs_nonneg _) (by norm_num [EPSILON_BOUNDARY])
  have h3 : |q - nv * T| ≤ EPSILON_ZERO + (1 + 2 * EPSILON_BOUNDARY) * (3 * EPSILON_ZERO) := by
    linarith
  refine h3.trans ?_
  have hTa2 : (1 : ℚ) - 3 * EPSILON_ZERO ≤ T := by linarith
  norm_num [EPSILON_ZERO, EPSILON_BOUNDARY] at hTa2 ⊢
  linarith
/-- C1 (amended): for every physically valid composition (normalized
coordinates at least `-ε_boundary`) and either orientation, converting to
Cartesian and back yields a composition whose normalized triple matches the
original within `1e-9` in every component.  (For compositions that are merely
normalizable the bound fails; see the counterexample.) -/
theorem roundtrip_physically_valid (comp : Composition) (inv : Bool)
    (hphys : comp.is_physically_valid = true) :
    ∃ x y n n2, bary_to_cart comp inv = some (x, y) ∧ comp.normalized = some n ∧
      (cart_to_bary x y inv).normalized = some n2 ∧
      |n2.1 - n.1| ≤ 1/10^9 ∧ |n2.2.1 - n.2.1| ≤ 1/10^9 ∧ |n2.2.2 - n.2.2| ≤ 1/10^9 := by
  obtain ⟨n, hn, hb1, hb2, hb3⟩ := physically_valid_spec comp hphys
  obtain ⟨x, y, hxy, hback⟩ := bary_cart_roundtrip_clamp comp inv n hn
  have hsum := normalized_sum_eq_one comp n hn
  have hB : (0:ℚ) < EPSILON_BOUNDARY := by norm_num [EPSILON_BOUNDARY]
  have habs1 : |n.1| ≤ 1 + 2 * EPSILON_BOUNDARY := abs_le.mpr ⟨by linarith, by linarith⟩
  have habs2 : |n.2.1| ≤ 1 + 2 * EPSILON_BOUNDARY := abs_le.mpr ⟨by linarith, by linarith⟩
  have habs3 : |n.2.2| ≤ 1 + 2 * EPSILON_BOUNDARY := abs_le.mpr ⟨by linarith, by linarith⟩
  have hq1 := clamp_close n.1
  have hq2 := clamp_close n.2.1
  have hq3 := clamp_close n.2.2
  set q1 := _clamp_barycentric n.1 with hq1def
  set q2 := _clamp_barycentric n.2.1 with hq2def
  set q3 := _clamp_barycentric n.2.2 with hq3def
  rcases abs_le.mp hq1 with ⟨hq1a, hq1b⟩
  rcases abs_le.mp hq2 with ⟨hq2a, hq2b⟩
  rcases abs_le.mp hq3 with ⟨hq3a, hq3b⟩
  have hT1 : |q1 + q2 + q3 - 1| ≤ 3 * EPSILON_ZERO := by
    rw [abs_le]
    constructor <;> [linarith; linarith]
  have hTge : (1:ℚ) - 3 * EPSILON_ZERO ≤ q1 + q2 + q3 := by
    rcases abs_le.mp hT1 with ⟨ha, hb⟩
    linarith
  have hTnz : ¬ |q1 + q2 + q3| < EPSILON_ZERO := by
    rw [not_lt]
    refine le_trans ?_ (le_abs_self _)
    norm_num [EPSILON_ZERO] at hTge ⊢
    linarith
  have htotal : (⟨q1, q2, q3⟩ : Composition).total = q1 + q2 + q3 := rfl
  have hnorm : (cart_to_bary x y inv).normalized =
      some (q1 / (q1 + q2 + q3), q2 / (q1 + q2 + q3), q3 / (q1 + q2 + q3)) := by
    rw [hback]
    unfold Composition.normalized
    rw [htotal, if_neg hTnz]
  exact ⟨x, y, n, _, hxy, hn, hnorm,
    div_close _ _ _ hT1 hq1 habs1, div_close _ _ _ hT1 hq2 habs2, div_close _ _ _ hT1 hq3 habs3⟩


/-- C1 witness: the centroid round-trips (both orientations are covered by
the theorem; the witness instantiates the upright one). -/
theorem roundtrip_physically_valid_witness :
    (⟨1/3, 1/3, 1/3⟩ : Composition).is_physically_valid = true ∧
    (∃ x y n n2, bary_to_cart ⟨1/3, 1/3, 1/3⟩ false = some (x, y) ∧
      (⟨1/3, 1/3, 1/3⟩ : Composition).normalized = some n ∧
      (cart_to_bary x y false).normalized = some n2 ∧
      |n2.1 - n.1| ≤ 1/10^9 ∧ |n2.2.1 - n.2.1| ≤ 1/10^9 ∧ |n2.2.2 - n.2.2| ≤ 1/10^9) :=
  ⟨by with_unfolding_all decide,
    roundtrip_physically_valid ⟨1/3, 1/3, 1/3⟩ false (by with_unfolding_all decide)⟩

/-- C1 counterexample: a composition with `|total| > ε_zero` (the claim's
precondition) whose round trip misses the original normalized triple by about
`5e-8 > 1e-9` in the second component: one normalized coordinate is tiny
(clamped away) while another is huge, so renormalization after clamping
shifts the large coordinate by more than the tolerance. -/
theorem roundtrip_counterexample :
    EPSILON_ZERO < |(⟨1/(2*10^12), 100000, -(99999 : ℚ) - 1/(2*10^12)⟩ : Composition).total| ∧
    bary_to_cart ⟨1/(2*10^12), 100000, -(99999 : ℚ) - 1/(2*10^12)⟩ false =
      some (200001999999999999/4000000000000,
        -866016743530400759944127018922193/10^28) ∧
    (⟨1/(2*10^12), 100000, -(99999 : ℚ) - 1/(2*10^12)⟩ : Composition).normalized =
      some (1/2000000000000, 100000, -199998000000000001/2000000000000) ∧
    (cart_to_bary (200001999999999999/4000000000000)
        (-866016743530400759944127018922193/10^28) false).normalized =
      some (0, 200000000000000000/1999999999999, -199998000000000001/1999999999999) ∧
    1/10^9 < |(200000000000000000 : ℚ)/1999999999999 - 100000| := by
  refine ⟨?_, ?_, ?_, ?_, ?_⟩
  · with_unfolding_all decide
  · unfold bary_to_cart Composition.normalized Composition.total get_vertices
    norm_num [EPSILON_ZERO, TRIANGLE_HEIGHT, abs_of_nonneg, abs_of_nonpos]
  · unfold Composition.normalized Composition.total
    norm_num [EPSILON_ZERO, abs_of_nonneg, abs_of_nonpos]
  · unfold cart_to_bary _clamp_barycentric Composition.normalized Composition.total
    norm_num [EPSILON_ZERO, TRIANGLE_HEIGHT, abs_of_nonneg, abs_of_nonpos]
  · norm_num [abs_of_nonneg]


theorem considerEdge_cases (p1 p2 : Composition) (acc : List Composition)
    (e : Composition × Composition) :
    considerEdge p1 p2 acc e = acc ∨
    ∃ res, considerEdge p1 p2 acc e = acc ++ [res] ∧ goodPoint res ∧
      ∀ x ∈ acc, Composition.normalized_is_close x res COMPOSITION_COMPARISON_ATOL = false := by
  unfold considerEdge
  cases hsi : solve_intersection p1 p2 e.1 e.2 with
  | none => exact Or.inl rfl
  | some res =>
      dsimp only
      cases hn : res.normalized with
      | none => exact Or.inl rfl
      | some vals =>
          dsimp only
          split
          next hb =>
            cases hany : acc.any
                (fun existing => existing.normalized_is_close res COMPOSITION_COMPARISON_ATOL) with
            | true => exact Or.inl (by simp)
            | false =>
                refine Or.inr ⟨res, by simp, ⟨vals, hn, hb.1, hb.2.1, hb.2.2⟩, ?_⟩
                intro x hx
                simpa using List.any_eq_false.mp hany x hx
          next => exact Or.inl rfl

theorem foldl_considerEdge_invariant (p1 p2 : Composition)
    (edges : List (Composition × Composition)) :
    ∀ acc : List Composition, (∀ r ∈ acc, goodPoint r) →
      acc.Pairwise (fun u v =>
        Composition.normalized_is_close u v COMPOSITION_COMPARISON_ATOL = false) →
      (∀ r ∈ edges.foldl (considerEdge p1 p2) acc, goodPoint r) ∧
      (edges.foldl (considerEdge p1 p2) acc).Pairwise (fun u v =>
        Composition.normalized_is_close u v COMPOSITION_COMPARISON_ATOL = false) ∧
      (edges.foldl (considerEdge p1 p2) acc).length ≤ acc.length + edges.length := by
  induction edges with
  | nil =>
      intro acc hg hp
      simpa using ⟨hg, hp⟩
  | cons e rest ih =>
      intro acc hg hp
      rcases considerEdge_cases p1 p2 acc e with hcase | ⟨res, heq, hgood, hnc⟩
      · rw [List.foldl_cons, hcase]
        obtain ⟨ha, hb, hc⟩ := ih acc hg hp
        refine ⟨ha, hb, hc.trans ?_⟩
        simp only [List.length_cons]
        omega
      · rw [List.foldl_cons, heq]
        have hg2 : ∀ r ∈ acc ++ [res], goodPoint r := by
          intro r hr
          rcases List.mem_append.mp hr with h | h
          · exact hg r h
          · rcases List.mem_singleton.mp h with rfl
            exact hgood
        have hp2 : (acc ++ [res]).Pairwise (fun u v =>
            Composition.normalized_is_close u v COMPOSITION_COMPARISON_ATOL = false) := by
          rw [List.pairwise_append]
          refine ⟨hp, List.pairwise_singleton _ _, ?_⟩
          intro x hx y hy
          rcases List.mem_singleton.mp hy with rfl
          exact hnc x hx
        obtain ⟨ha, hb, hc⟩ := ih (acc ++ [res]) hg2 hp2
        refine ⟨ha, hb, ?_⟩
        simp only [List.length_append, List.length_cons, List.length_nil] at hc ⊢
        omega

/-- C6 (amended): `get_line_triangle_intersections` returns at most THREE
compositions (one per triangle edge; the claim's bound of two fails — see the
counterexample); every returned composition normalizes with all coordinates
at least `-ε_boundary`; and no two returned compositions are
normalized-close to each other. -/
theorem line_triangle_intersections_props (p1 p2 : Composition) :
    (get_line_triangle_intersections p1 p2).length ≤ 3 ∧
    (∀ r ∈ get_line_triangle_intersections p1 p2, goodPoint r) ∧
    (get_line_triangle_intersections p1 p2).Pairwise (fun u v =>
      Composition.normalized_is_close u v COMPOSITION_COMPARISON_ATOL = false) := by
  have h := foldl_considerEdge_invariant p1 p2
    [(Composition.vertex_a, Composition.vertex_b),
     (Composition.vertex_b, Composition.vertex_c),
     (Composition.vertex_c, Composition.vertex_a)] [] (by simp) (by simp)
  unfold get_line_triangle_intersections
  exact ⟨by simpa using h.2.2, h.1, h.2.1⟩

/-- C6 counterexample: a line grazing edge `b = 0` of the triangle — through
two normalizable compositions perturbed from vertices `A` and `C` by about
`ε_boundary` — meets all three edge lines inside the `-ε_boundary` tolerance
at three mutually far-apart points, so the function returns THREE
compositions, not at most two. -/
theorem line_triangle_intersections_counterexample :
    (⟨1 + 1/(4*10^9), -(1/(2*10^9)), 1/(4*10^9)⟩ : Composition).normalized.isSome = true ∧
    (⟨-(1/(4*10^9)), 1/(2*10^9), 1 - 1/(4*10^9)⟩ : Composition).normalized.isSome = true ∧
    (get_line_triangle_intersections ⟨1 + 1/(4*10^9), -(1/(2*10^9)), 1/(4*10^9)⟩
      ⟨-(1/(4*10^9)), 1/(2*10^9), 1 - 1/(4*10^9)⟩).length = 3 := by
  refine ⟨?_, ?_, ?_⟩ <;> with_unfolding_all decide

/-- C6 witness: the amended bound instantiated on the edge `A`–`B`. -/
theorem line_triangle_intersections_props_witness :
    (get_line_triangle_intersections Composition.vertex_a Composition.vertex_b).length ≤ 3 :=
  (line_triangle_intersections_props Composition.vertex_a Composition.vertex_b).1

end Delta

